import Mathlib

/-!
Verification development for the glslmath mesh module
(`src/include/mesh.hpp` together with the vector algebra of
`src/include/math.hpp`).

The binary serializer of `mesh.hpp` is a family of C++ templates over an
output cursor `Iter`.  A cursor supports exactly three operations:
append one byte (`*p++ = b`), copy the cursor, and subtract two cursors
to obtain a distance.  Two cursor instantiations occur in the program:

* a real byte sink (pointer / vector iterator), modelled below by a
  `List Nat` of bytes where the cursor position is the list length and
  the chunk length backpatch is a random-access overwrite;
* the counting cursor `sizer` (mesh.hpp lines 20-37), which discards
  bytes and accumulates a running total, modelled by a `Nat` counter.

Every write performed by the serializer is one of: a raw byte append, a
16-bit little-endian write (`serial::wr16`), a 32-bit little-endian
write (`serial::wr32`), a NUL-terminated padded text write
(`serial::wrtxt`), or a tagged chunk (`serial::chunk`) whose destructor
backpatches the length field and pads to 4-byte alignment
(mesh.hpp lines 39-106).  We embed such call sequences as the inductive
type `W` and give it the two interpreters `runW` (real sink) and
`sizerW` (counting sink), each translated line by line from the source.
-/

/-- Round the position `p` up to the next multiple of 4 measured from the
reference position `ref`; this is the count reached by
`serial::align4` (mesh.hpp lines 84-88), which appends zero bytes while
`(p - ref) & 3` is nonzero. -/
def padUpFrom (p ref : Nat) : Nat := p + (4 - (p - ref) % 4) % 4

/-- The two bytes appended by `serial::wr16` (mesh.hpp lines 49-54):
`value & 0xff` then `(value >> 8) & 0xff`. -/
def wr16Bytes (v : Nat) : List Nat := [v % 256, v / 256 % 256]

/-- The four bytes appended by `serial::wr32` (mesh.hpp lines 40-47):
`value & 0xff`, `(value >> 8) & 0xff`, `(value >> 16) & 0xff`,
`(value >> 24) & 0xff`. -/
def wr32Bytes (v : Nat) : List Nat :=
  [v % 256, v / 256 % 256, v / 65536 % 256, v / 16777216 % 256]

/-- `serial::align4(p, ref)` on a real byte sink: append zero bytes until
the distance from position `ref` is a multiple of 4
(mesh.hpp lines 84-88). -/
def align4app (buf : List Nat) (ref : Nat) : List Nat :=
  buf ++ List.replicate ((4 - (buf.length - ref) % 4) % 4) 0

/-- `serial::wrtxt(p, text)` on a real byte sink (mesh.hpp lines 56-63):
append the text bytes (the NUL-free characters of the C string), then a
terminating zero byte, then zero padding to a 4-byte boundary measured
from the start of the text. -/
def wrtxtApp (buf : List Nat) (s : List Nat) : List Nat :=
  align4app (buf ++ s ++ [0]) buf.length

/-- Random-access rewrite of `bs.length` bytes at position `p`, as done by
the backpatching `wr32(len, ...)` in `serial::chunk::~chunk`
(mesh.hpp line 102). -/
def listOverwrite (l : List Nat) (p : Nat) (bs : List Nat) : List Nat :=
  l.take p ++ bs ++ l.drop (p + bs.length)

/-- Parse four bytes at position `p` as a little-endian 32-bit value (how a
reader of the chunk format recovers a length field). -/
def readLE32 (l : List Nat) (p : Nat) : Nat :=
  l.getD p 0 + 256 * l.getD (p + 1) 0 + 65536 * l.getD (p + 2) 0
    + 16777216 * l.getD (p + 3) 0

/-- A writer-call sequence: the exact alphabet of operations the
serializer performs against a cursor.  `chunk tag body` is the scoped
`serial::chunk` object: tag text, zeroed length field, nested body,
length backpatch and final alignment on close. -/
inductive W where
  | nil : W
  | raw : List Nat → W
  | w16 : Nat → W
  | w32 : Nat → W
  | txt : List Nat → W
  | seq : W → W → W
  | chunk : List Nat → W → W
deriving DecidableEq

/-- Interpreter of a writer-call sequence against a real byte sink.  Each
arm is the corresponding template of `struct serial` (mesh.hpp
lines 39-106) instantiated at a random-access byte buffer; the
`chunk` arm performs the constructor (tag text, zero length field), the
body, and the destructor (backpatch `wr32(len, p - len)`, then
`align4(p, len)`). -/
def runW : W → List Nat → List Nat
  | .nil, buf => buf
  | .raw bs, buf => buf ++ bs
  | .w16 v, buf => buf ++ wr16Bytes v
  | .w32 v, buf => buf ++ wr32Bytes v
  | .txt s, buf => wrtxtApp buf s
  | .seq a b, buf => runW b (runW a buf)
  | .chunk tag body, buf =>
    let b1 := wrtxtApp buf tag
    let b3 := runW body (b1 ++ wr32Bytes 0)
    align4app (listOverwrite b3 b1.length (wr32Bytes (b3.length - b1.length))) b1.length

/-- Interpreter of a writer-call sequence against the counting cursor
`sizer` (mesh.hpp lines 20-37): every `*p++` adds one to the running
total and nothing else is observable.  In the `chunk` arm the
backpatching `wr32(len, ...)` writes through a copy of the cursor taken
at the length field, so it adds nothing to the total, while the closing
`align4(p, len)` pads relative to that copied position. -/
def sizerW : W → Nat → Nat
  | .nil, n => n
  | .raw bs, n => n + bs.length
  | .w16 _, n => n + 2
  | .w32 _, n => n + 4
  | .txt s, n => padUpFrom (n + s.length + 1) n
  | .seq a b, n => sizerW b (sizerW a n)
  | .chunk tag body, n =>
    let n1 := padUpFrom (n + tag.length + 1) n
    padUpFrom (sizerW body (n1 + 4)) n1

/-!
Rational model of the `float` scalar.  The vector algebra of
`math.hpp` computes over IEEE-754 binary32; we model the scalar by `ℚ`
(exact arithmetic) and model the places where the bit representation or
an inexact primitive is observable — the byte encoding in
`attribute::write_binary` and `std::sqrt` inside `normalized` — by the
explicit functions below.  No claim settled in this file depends on a
value produced by an inexact float operation.
-/

/-- Round a nonnegative rational to the nearest natural number, ties to
even. -/
def roundHalfEven (q : ℚ) : Nat :=
  let n : Nat := (⌊q⌋).toNat
  if q - (n : ℚ) < 1 / 2 then n
  else if q - (n : ℚ) > 1 / 2 then n + 1
  else if n % 2 = 0 then n else n + 1

/-- Round `n / 2 ^ s` to the nearest natural number, ties to even. -/
def roundShift (n s : Nat) : Nat :=
  let d := 2 ^ s
  if 2 * (n % d) < d then n / d
  else if 2 * (n % d) > d then n / d + 1
  else if n / d % 2 = 0 then n / d else n / d + 1

/-- Bit pattern of the IEEE-754 binary32 value nearest to the rational
`q` (sign, 8 exponent bits, 23 mantissa bits; round to nearest, ties to
even; overflow goes to the infinity pattern).  The rational is first
scaled into subnormal units (`2 ^ 149`); the second rounding step for
normal numbers can differ from a single rounding only on ties at 149-bit
precision, which no claim below inspects. -/
def f32bits (q : ℚ) : Nat :=
  if q = 0 then 0 else
  let s : Nat := if q < 0 then 2147483648 else 0
  let n : Nat := roundHalfEven (|q| * 2 ^ 149)
  if n = 0 then s
  else if n < 8388608 then s + n
  else
    let p := Nat.log2 n
    let m0 := roundShift n (p - 23)
    let m1 := if m0 = 16777216 then 8388608 else m0
    let e := (if m0 = 16777216 then p + 1 else p) - 22
    if e ≥ 255 then s + 2139095040
    else s + e * 8388608 + (m1 - 8388608)

/-- The four bytes stored by the `union { uint8 u[4]; float f; }` copy in
`attribute::write_binary` (mesh.hpp lines 164-181) on a little-endian
host: the little-endian bytes of the binary32 bit pattern. -/
def f32bytes (q : ℚ) : List Nat := wr32Bytes (f32bits q)

/-- The 3-component float vector `vec3` of math.hpp (line 201), with the
rational scalar model. -/
structure Vec3q where
  x : ℚ
  y : ℚ
  z : ℚ
deriving DecidableEq

/-- The 4-component float vector `vec4` of math.hpp (line 224). -/
structure Vec4q where
  x : ℚ
  y : ℚ
  z : ℚ
  w : ℚ
deriving DecidableEq

/-- Componentwise `operator+` on `vec3` (math.hpp line 88). -/
def add3 (a b : Vec3q) : Vec3q := ⟨a.x + b.x, a.y + b.y, a.z + b.z⟩

/-- Componentwise `operator-` on `vec3` (math.hpp line 91). -/
def sub3 (a b : Vec3q) : Vec3q := ⟨a.x - b.x, a.y - b.y, a.z - b.z⟩

/-- `dot` on `vec3` (math.hpp line 130). -/
def dot3 (a b : Vec3q) : ℚ := a.x * b.x + a.y * b.y + a.z * b.z

/-- `cross` (math.hpp lines 318-320). -/
def cross3 (a b : Vec3q) : Vec3q :=
  ⟨a.y * b.z - a.z * b.y, a.z * b.x - a.x * b.z, a.x * b.y - a.y * b.x⟩

/-- Rational model of `std::sqrt` on a nonnegative rational: exact on
rationals whose numerator and denominator are perfect squares (every
use reached by a settled claim is exact or dead code). -/
def sqrtQ (q : ℚ) : ℚ := (Nat.sqrt q.num.toNat : ℚ) / (Nat.sqrt q.den : ℚ)

/-- `normalized(a) = a * (1.0f / sqrt(dot(a, a)))`
(math.hpp lines 132-136). -/
def normalized3 (a : Vec3q) : Vec3q :=
  let rlen := 1 / sqrtQ (dot3 a a)
  ⟨a.x * rlen, a.y * rlen, a.z * rlen⟩

/-- `vec4::xyz()` of the stored 4-component vertex value. -/
def xyz4 (v : Vec4q) : Vec3q := ⟨v.x, v.y, v.z⟩

/-- `attribute::push(const vec3 &)` promotion: `vec4(v, 1)`
(mesh.hpp lines 146-148). -/
def push3 (v : Vec3q) : Vec4q := ⟨v.x, v.y, v.z, 1⟩

/-- One named per-vertex channel: the `attribute` class
(mesh.hpp lines 108-208).  `name` holds the bytes of the C++ string
(NUL-free); each stored vertex value is a full `vec4` regardless of the
declared `vector_elems`. -/
structure Attribute where
  name : List Nat
  vector_elems : Nat
  scalar_size : Nat
  is_float : Bool
  is_unsigned : Bool
  is_normalized : Bool
  vertices : List Vec4q
deriving DecidableEq

/-- The default-constructed `attribute()` (mesh.hpp line 110): empty
name, 3 elements of 4 bytes, float, not unsigned, not normalized, no
data.  Used to totalize the out-of-bounds `attrs_[...]` accesses that
are undefined behavior in the source. -/
def defaultAttr : Attribute := ⟨[], 3, 4, true, false, false, []⟩

/-- `attribute::vertex_size() = vector_elems_ * scalar_size_`
(mesh.hpp line 125). -/
def Attribute.vertex_size (a : Attribute) : Nat := a.vector_elems * a.scalar_size

/-- The `mesh` class (mesh.hpp lines 211-357): name bytes, export index
width, ordered attribute list, and the flat `uint32` index buffer. -/
structure Mesh where
  name : List Nat
  index_size : Nat
  attrs : List Attribute
  indices : List Nat
deriving DecidableEq

/-- `mesh::bad_attr = ~(size_t)0` (mesh.hpp line 215). -/
def bad_attr : Nat := 18446744073709551615

/-- The scan loop of `mesh::find_attribute` (mesh.hpp lines 227-232),
carrying the running position `i`. -/
def findAttrAux : List Attribute → List Nat → Nat → Nat
  | [], _, _ => bad_attr
  | a :: rest, nm, i => if a.name = nm then i else findAttrAux rest nm (i + 1)

/-- `mesh::find_attribute(name)`: index of the first attribute with the
given name, or the sentinel `bad_attr` (mesh.hpp lines 227-232). -/
def Mesh.find_attribute (m : Mesh) (nm : List Nat) : Nat :=
  findAttrAux m.attrs nm 0

/-- Bytes of the attribute name "pos". -/
def posName : List Nat := [112, 111, 115]

/-- Bytes of the attribute name "normal". -/
def normalName : List Nat := [110, 111, 114, 109, 97, 108]

/-- Bytes of the attribute name "uv". -/
def uvName : List Nat := [117, 118]

/-- Projection of a stored vertex value to its first three components;
these are the only components `attribute::write_binary` ever reads
(mesh.hpp lines 166, 171, 176). -/
def xyzOf (v : Vec4q) : ℚ × ℚ × ℚ := (v.x, v.y, v.z)

/-- Little-endian binary32 encoding of a component triple: the twelve
bytes the `a3f` loop appends for one vertex. -/
def f32enc3 (t : ℚ × ℚ × ℚ) : List Nat :=
  f32bytes t.1 ++ f32bytes t.2.1 ++ f32bytes t.2.2

/-- The twelve raw bytes `attribute::write_binary` appends for one stored
vertex: `v[0]`, `v[1]`, `v[2]` as little-endian binary32; the fourth
stored component is not read (mesh.hpp lines 164-181). -/
def f32triple (v : Vec4q) : List Nat := f32enc3 (xyzOf v)

/-- Chunk tag "ATR". -/
def tagATR : List Nat := [65, 84, 82]

/-- Chunk tag "atn". -/
def tagAtn : List Nat := [97, 116, 110]

/-- Chunk tag "a3f". -/
def tagA3f : List Nat := [97, 51, 102]

/-- Chunk tag "MSH". -/
def tagMSH : List Nat := [77, 83, 72]

/-- Chunk tag "msh". -/
def tagMsh : List Nat := [109, 115, 104]

/-- Chunk tag "ix2". -/
def tagIx2 : List Nat := [105, 120, 50]

/-- Chunk tag "ix4". -/
def tagIx4 : List Nat := [105, 120, 52]

/-- Chunk tag "MLT". -/
def tagMLT : List Nat := [77, 76, 84]

/-- The writer-call sequence of `attribute::write_binary`
(mesh.hpp lines 154-185): an `ATR` chunk containing an `atn` chunk with
the name text and an `a3f` chunk with twelve raw bytes per stored
vertex. -/
def attrCalls (a : Attribute) : W :=
  W.chunk tagATR
    (W.seq (W.chunk tagAtn (W.txt a.name))
           (W.chunk tagA3f (W.raw (a.vertices.map f32triple).flatten)))

/-- `attribute::write_binary` against a real byte sink. -/
def Attribute.write_binary (a : Attribute) (buf : List Nat) : List Nat :=
  runW (attrCalls a) buf

/-- Right-nested sequencing of a list of writer calls. -/
def wseq : List W → W
  | [] => W.nil
  | c :: cs => W.seq c (wseq cs)

/-- The index sub-chunk of `mesh::write_binary` (mesh.hpp lines 248-260):
an `ix2` chunk of `wr16` writes when `index_size_ == 2`, else an `ix4`
chunk of `wr32` writes. -/
def meshIndexCalls (m : Mesh) : W :=
  if m.index_size = 2 then W.chunk tagIx2 (wseq (m.indices.map W.w16))
  else W.chunk tagIx4 (wseq (m.indices.map W.w32))

/-- The writer-call sequence of `mesh::write_binary`
(mesh.hpp lines 234-264): an `MSH` chunk containing an `msh` name chunk,
each attribute's calls in insertion order, and the index sub-chunk. -/
def meshCalls (m : Mesh) : W :=
  W.chunk tagMSH
    (W.seq (W.chunk tagMsh (W.txt m.name))
           (W.seq (wseq (m.attrs.map attrCalls)) (meshIndexCalls m)))

/-- `mesh::write_binary` against a real byte sink. -/
def Mesh.write_binary (m : Mesh) (buf : List Nat) : List Nat :=
  runW (meshCalls m) buf

/-- The writer-call sequence of `multi_mesh::write_binary`
(mesh.hpp lines 423-432): an `MLT` chunk containing each member mesh's
calls in order.  A `multi_mesh` publicly inherits `std::vector<mesh>`,
so we model it as `List Mesh`. -/
def multi_meshCalls (mm : List Mesh) : W :=
  W.chunk tagMLT (wseq (mm.map meshCalls))

/-- `multi_mesh::write_binary` against a real byte sink. -/
def multi_mesh.write_binary (mm : List Mesh) (buf : List Nat) : List Nat :=
  runW (multi_meshCalls mm) buf

/-- The triangle triples the index loops visit: `mesh::generate_normals`
and `mesh::write_obj` both iterate `for (i = 0; i + 2 < icount; i += 3)`
reading `indices[i]`, `indices[i+1]`, `indices[i+2]`
(mesh.hpp lines 278, 328); a trailing group of fewer than three indices
is never read. -/
def triangleTriples : List Nat → List (Nat × Nat × Nat)
  | a :: b :: c :: rest => (a, b, c) :: triangleTriples rest
  | _ => []

/-- One iteration of the accumulation loop of `mesh::generate_normals`
(mesh.hpp lines 278-290): the face normal
`cross(b - a, c - a)` of positions `pos[ai]`, `pos[bi]`, `pos[ci]` is
added into the three per-vertex accumulators.  Out-of-range position
reads (undefined behavior in the source) are totalized with the zero
vector, and `List.set` ignores out-of-range accumulator writes. -/
def addTriNormal (pos : List Vec4q) (ns : List Vec3q) (tri : Nat × Nat × Nat) : List Vec3q :=
  let a := xyz4 (pos.getD tri.1 ⟨0, 0, 0, 0⟩)
  let b := xyz4 (pos.getD tri.2.1 ⟨0, 0, 0, 0⟩)
  let c := xyz4 (pos.getD tri.2.2 ⟨0, 0, 0, 0⟩)
  let nrm := cross3 (sub3 b a) (sub3 c a)
  let ns1 := ns.set tri.1 (add3 (ns.getD tri.1 ⟨0, 0, 0⟩) nrm)
  let ns2 := ns1.set tri.2.1 (add3 (ns1.getD tri.2.1 ⟨0, 0, 0⟩) nrm)
  ns2.set tri.2.2 (add3 (ns2.getD tri.2.2 ⟨0, 0, 0⟩) nrm)

/-- `mesh::generate_normals` (mesh.hpp lines 267-300), translated
line by line.  Note the guard on line 268 compares
`find_attribute("normal")` against `attributes().size()`, not against
the sentinel `bad_attr` that `find_attribute` returns on a miss.
When the guard falls through, `add_attribute("normal")` appends a
descriptor with default parameters, face normals are accumulated
per vertex, and each accumulator with squared length at least `1e-6` is
normalized while the rest receive the fallback `(1, 0, 0)`
(threshold modelled exactly as the rational `1 / 1000000`). -/
def Mesh.generate_normals (m : Mesh) : Mesh :=
  if m.find_attribute normalName ≠ m.attrs.length then m
  else
    let normal_attr := m.attrs.length
    let attrs1 := m.attrs ++ [⟨normalName, 3, 4, true, false, false, []⟩]
    let pos_attr := findAttrAux attrs1 posName 0
    let pos := attrs1.getD pos_attr defaultAttr
    let normals0 := List.replicate pos.vertices.length (⟨0, 0, 0⟩ : Vec3q)
    let normals := (triangleTriples m.indices).foldl (addTriNormal pos.vertices) normals0
    let newData := normals.map (fun n =>
      if dot3 n n ≥ 1 / 1000000 then push3 (normalized3 n) else push3 ⟨1, 0, 0⟩)
    ⟨m.name, m.index_size, attrs1.set normal_attr ⟨normalName, 3, 4, true, false, false, newData⟩,
      m.indices⟩

/-- One line of the Wavefront text export: the `o` header, a `v` vertex
line, or an `f` face line in one of the four slash layouts chosen by
which of the `uv` / `normal` attributes exist.  The source prints the
same index value in every slot of a face entry, so one value per corner
determines the line (mesh.hpp lines 327-341). -/
inductive ObjLine where
  | header : List Nat → ObjLine
  | vert : ℚ → ℚ → ℚ → ObjLine
  | face : Nat → Nat → Nat → ObjLine
  | faceUV : Nat → Nat → Nat → ObjLine
  | faceN : Nat → Nat → Nat → ObjLine
  | faceUVN : Nat → Nat → Nat → ObjLine
deriving DecidableEq

/-- The `f` line emitted for one triangle, keyed on which of the `uv` and
`normal` attributes were found (mesh.hpp lines 332-340). -/
def objFaceLine (uvAbsent normalAbsent : Bool) (t : Nat × Nat × Nat) : ObjLine :=
  if uvAbsent ∧ normalAbsent then ObjLine.face t.1 t.2.1 t.2.2
  else if ¬uvAbsent ∧ normalAbsent then ObjLine.faceUV t.1 t.2.1 t.2.2
  else if uvAbsent ∧ ¬normalAbsent then ObjLine.faceN t.1 t.2.1 t.2.2
  else ObjLine.faceUVN t.1 t.2.1 t.2.2

/-- `mesh::write_obj` (mesh.hpp lines 302-342).  The header is written
first; a missing `pos` attribute returns with only the header; otherwise
the shape test `vertex_size() != 3 || scalar_size() != 4 || !is_float()`
throws `std::range_error` (modelled by `Except.error ()`); otherwise one
`v` line per stored `pos` vertex and one `f` line per triangle follow.
(On a throw the source has already streamed the header; the model only
tracks whether the error is raised, as the claims do.) -/
def Mesh.write_obj (m : Mesh) : Except Unit (List ObjLine) :=
  let pos_attr := m.find_attribute posName
  let uv_attr := m.find_attribute uvName
  let normal_attr := m.find_attribute normalName
  let header := [ObjLine.header m.name]
  if pos_attr = bad_attr then Except.ok header
  else
    let attr := m.attrs.getD pos_attr defaultAttr
    if attr.vertex_size ≠ 3 ∨ attr.scalar_size ≠ 4 ∨ attr.is_float = false then
      Except.error ()
    else
      let vlines := attr.vertices.map (fun v => ObjLine.vert v.x v.y v.z)
      let flines := (triangleTriples m.indices).map
        (objFaceLine (decide (uv_attr = bad_attr)) (decide (normal_attr = bad_attr)))
      Except.ok (header ++ vlines ++ flines)

/-- Fuel-driven decimal digit accumulator (ASCII) for the
`std::stringstream` rendering of the sub-mesh number. -/
def natDigitsAux : Nat → Nat → List Nat → List Nat
  | 0, _, acc => acc
  | fuel + 1, n, acc =>
    if n = 0 then acc else natDigitsAux fuel (n / 10) ((n % 10 + 48) :: acc)

/-- ASCII decimal rendering of a natural number, as `ns << mesh_number`
produces inside `multi_mesh::split` (mesh.hpp line 402). -/
def natDigits (n : Nat) : List Nat :=
  if n = 0 then [48] else natDigitsAux (n + 1) n []

/-- The mutable state of the slow-path loop of `multi_mesh::split`
(mesh.hpp lines 387-417): the forward map `fwd` (sized to the index
buffer and indexed by loop position in the source), the reverse list
`rev`, the within-triangle counter `t`, the running sub-mesh number, and
the result vector `dest`. -/
structure SplitSt where
  fwd : List Nat
  rev : List Nat
  t : Nat
  mesh_number : Nat
  dest : List Mesh
deriving DecidableEq

/-- One iteration (loop position `i`) of the slow path of
`multi_mesh::split` (mesh.hpp lines 393-417).  Note the source indexes
`fwd` by the loop position `i` and pushes `i` itself onto `rev` (not the
index value `indices[i]`).  In the finalize branch the source constructs
a local `mesh submesh(...)` whose indices are assigned from `rev` and,
per source attribute, a local `attribute newattr` whose element
assignments `newattr[j] = oldattr[rev[j]]` go through the
value-returning `const` `operator[]` and so modify a temporary; neither
`newattr` nor `submesh` is ever attached to `dest`, so the whole
construction (mirrored by the discarded `_submesh` binding below) has no
effect on the returned value. -/
def splitStep (src : Mesh) (max_size new_index_size n : Nat) (st : SplitSt) (i : Nat) :
    SplitSt :=
  let st1 :=
    if st.fwd.getD i 0 = 0 then
      ⟨st.fwd.set i (st.rev.length + 1), st.rev ++ [i], st.t, st.mesh_number, st.dest⟩
    else st
  if st1.t + 1 = 3 ∨ i = n - 1 then
    if i = n - 1 ∨ st1.rev.length ≥ max_size then
      let _submesh : Mesh :=
        ⟨src.name ++ [46] ++ natDigits st1.mesh_number, new_index_size, [], st1.rev⟩
      ⟨List.replicate n 0, [], 0, st1.mesh_number + 1, st1.dest⟩
    else
      ⟨st1.fwd, st1.rev, 0, st1.mesh_number, st1.dest⟩
  else
    ⟨st1.fwd, st1.rev, st1.t + 1, st1.mesh_number, st1.dest⟩

/-- `multi_mesh::split` (mesh.hpp lines 374-421).  The fast path pushes
the source mesh unchanged when every index is below `max_size`; the slow
path runs the chunking loop over all index positions and returns
`dest`. -/
def multi_mesh.split (src : Mesh) (max_size new_index_size : Nat) : List Mesh :=
  let is_small := src.indices.all (fun i => decide (i < max_size))
  if is_small then [src]
  else
    let n := src.indices.length
    let fin := (List.range n).foldl (splitStep src max_size new_index_size n)
      ⟨List.replicate n 0, [], 0, 0, []⟩
    fin.dest

/-!
Concrete example inputs used by the closed claim theorems and the
witnesses below.
-/

/-- A mesh whose indices all lie below 10: exercises the fast path of
`multi_mesh::split`. -/
def smallMesh : Mesh := ⟨[109], 4, [], [0, 1, 2]⟩

/-- A mesh with a well-formed `pos` attribute and one triangle whose
index 2 reaches the `max_size` bound 2: exercises the slow path of
`multi_mesh::split`. -/
def bigMesh : Mesh :=
  ⟨[109], 4,
    [⟨posName, 3, 4, true, false, false, [⟨0, 0, 0, 1⟩, ⟨0, 0, 0, 1⟩, ⟨0, 0, 0, 1⟩]⟩],
    [0, 1, 2]⟩

/-- The unit-square example mesh of the specification: `pos` =
{(0,0,0), (1,0,0), (1,1,0), (0,1,0)}, indices {0,1,2, 0,2,3}. -/
def squareMesh : Mesh :=
  ⟨[109], 4,
    [⟨posName, 3, 4, true, false, false,
      [⟨0, 0, 0, 1⟩, ⟨1, 0, 0, 1⟩, ⟨1, 1, 0, 1⟩, ⟨0, 1, 0, 1⟩]⟩],
    [0, 1, 2, 0, 2, 3]⟩

/-- A mesh whose `pos` attribute has exactly the shape the specification
calls well-formed: 3 components, 4-byte scalars, float. -/
def meshPosEx : Mesh :=
  ⟨[109], 4, [⟨posName, 3, 4, true, false, false, [⟨0, 0, 0, 1⟩]⟩], []⟩

/-- A mesh with no `pos` attribute. -/
def meshNoPosEx : Mesh := ⟨[110], 4, [], [0, 1, 2]⟩

/-- A mesh with no attributes and no indices. -/
def emptyMesh : Mesh := ⟨[109], 4, [], []⟩

/-- A 16-bit-index mesh holding the index value 70000, which exceeds
65535. -/
def meshIx : Mesh := ⟨[109], 2, [], [70000]⟩

/-- An attribute with the default descriptor and one stored vertex. -/
def attrFlagsA : Attribute := ⟨posName, 3, 4, true, false, false, [⟨1, 2, 3, 4⟩]⟩

/-- An attribute with the same name and the same first three stored
components as `attrFlagsA` but a different fourth component and
different `vector_elems`, `scalar_size`, `is_float`, `is_unsigned` and
`is_normalized` flags. -/
def attrFlagsB : Attribute := ⟨posName, 4, 2, false, true, true, [⟨1, 2, 3, 7⟩]⟩

/-!
Helper lemmas about the serializer.  `runW_spec` is the central fact:
against a real sink a writer-call sequence appends a block of bytes
whose size is exactly what the counting cursor accumulates, despite the
backpatch rewrites inside chunks.
-/

theorem listOverwrite_at (x a y b : List Nat) (h : a.length = b.length) :
    listOverwrite (x ++ a ++ y) x.length b = x ++ b ++ y := by
  unfold listOverwrite
  have h1 : (x ++ a ++ y).take x.length = x := by
    rw [List.append_assoc]; exact List.take_left x (a ++ y)
  have h2 : (x ++ a ++ y).drop (x.length + b.length) = y := by
    have hx : x.length + b.length = (x ++ a).length := by simp [← h]
    rw [hx]; exact List.drop_left (x ++ a) y
  rw [h1, h2]

theorem wrtxtApp_spec (buf s : List Nat) :
    ∃ k, wrtxtApp buf s = buf ++ (s ++ [0] ++ List.replicate k 0)
      ∧ (s.length + 1 + k) % 4 = 0 ∧ k < 4 := by
  refine ⟨(4 - (s.length + 1) % 4) % 4, ?_, by omega, by omega⟩
  unfold wrtxtApp align4app
  have hd : (buf ++ s ++ [0]).length - buf.length = s.length + 1 := by simp
  rw [hd]
  simp [List.append_assoc]

theorem runW_chunk_eq (tag : List Nat) (body : W) (buf ex : List Nat) (k : Nat)
    (hT : wrtxtApp buf tag = buf ++ (tag ++ [0] ++ List.replicate k 0))
    (hB : runW body (wrtxtApp buf tag ++ wr32Bytes 0)
            = (wrtxtApp buf tag ++ wr32Bytes 0) ++ ex) :
    runW (W.chunk tag body) buf
      = buf ++ (tag ++ [0] ++ List.replicate k 0) ++ wr32Bytes (4 + ex.length)
          ++ ex ++ List.replicate ((4 - (4 + ex.length) % 4) % 4) 0 := by
  have h0 : wr32Bytes 0 = [0, 0, 0, 0] := rfl
  simp only [runW]
  rw [hB, hT, h0]
  set X := buf ++ (tag ++ [0] ++ List.replicate k 0) with hX
  have hlen : (X ++ [0, 0, 0, 0] ++ ex).length - X.length = 4 + ex.length := by
    simp; omega
  rw [hlen]
  have hov := listOverwrite_at X [0, 0, 0, 0] ex (wr32Bytes (4 + ex.length))
    (by simp [wr32Bytes])
  rw [hov]
  unfold align4app
  have hlen2 : (X ++ wr32Bytes (4 + ex.length) ++ ex).length - X.length = 4 + ex.length := by
    simp [wr32Bytes]; omega
  rw [hlen2]

theorem runW_spec (w : W) : ∀ buf : List Nat, ∃ ex : List Nat,
    runW w buf = buf ++ ex ∧ buf.length + ex.length = sizerW w buf.length := by
  induction w with
  | nil => exact fun buf => ⟨[], by simp [runW, sizerW]⟩
  | raw bs => exact fun buf => ⟨bs, by simp [runW, sizerW]⟩
  | w16 v => exact fun buf => ⟨wr16Bytes v, by simp [runW, sizerW, wr16Bytes]⟩
  | w32 v => exact fun buf => ⟨wr32Bytes v, by simp [runW, sizerW, wr32Bytes]⟩
  | txt s =>
    intro buf
    obtain ⟨k, h1, h2, h3⟩ := wrtxtApp_spec buf s
    refine ⟨s ++ [0] ++ List.replicate k 0, by simpa [runW] using h1, ?_⟩
    simp only [sizerW, padUpFrom]
    simp
    omega
  | seq a b iha ihb =>
    intro buf
    obtain ⟨e1, h1, h1l⟩ := iha buf
    obtain ⟨e2, h2, h2l⟩ := ihb (buf ++ e1)
    refine ⟨e1 ++ e2, ?_, ?_⟩
    · simp only [runW]
      rw [h1, h2, List.append_assoc]
    · simp only [sizerW]
      rw [← h1l]
      simp at h2l ⊢
      omega
  | chunk tag body ih =>
    intro buf
    obtain ⟨k, hT, hk4, hklt⟩ := wrtxtApp_spec buf tag
    obtain ⟨ex, hB, hBl⟩ := ih (wrtxtApp buf tag ++ wr32Bytes 0)
    have hout := runW_chunk_eq tag body buf ex k hT hB
    refine ⟨(tag ++ [0] ++ List.replicate k 0) ++ wr32Bytes (4 + ex.length)
        ++ ex ++ List.replicate ((4 - (4 + ex.length) % 4) % 4) 0, ?_, ?_⟩
    · rw [hout]; simp [List.append_assoc]
    · have hb1 : (wrtxtApp buf tag).length = buf.length + (tag.length + 1 + k) := by
        rw [hT]; simp; omega
      have hb2 : (wrtxtApp buf tag ++ wr32Bytes 0).length
          = (wrtxtApp buf tag).length + 4 := by simp [wr32Bytes]
      rw [hb2] at hBl
      have hn1 : padUpFrom (buf.length + tag.length + 1) buf.length
          = (wrtxtApp buf tag).length := by
        rw [hb1]; simp only [padUpFrom]; omega
      simp only [sizerW]
      rw [hn1, ← hBl, hb1]
      simp only [padUpFrom]
      simp [wr32Bytes]
      omega

theorem sizerW_le (w : W) : ∀ n : Nat, n ≤ sizerW w n := by
  induction w with
  | nil => intro n; simp [sizerW]
  | raw bs => intro n; simp [sizerW]
  | w16 v => intro n; simp [sizerW]
  | w32 v => intro n; simp [sizerW]
  | txt s => intro n; simp only [sizerW, padUpFrom]; omega
  | seq a b iha ihb => intro n; exact le_trans (iha n) (ihb (sizerW a n))
  | chunk tag body ih =>
    intro n
    simp only [sizerW]
    have h1 : n ≤ padUpFrom (n + tag.length + 1) n := by simp only [padUpFrom]; omega
    have h2 := ih (padUpFrom (n + tag.length + 1) n + 4)
    simp only [padUpFrom] at h2 ⊢
    omega

theorem sizerW_shift (w : W) : ∀ m n : Nat, sizerW w (m + n) = m + sizerW w n := by
  induction w with
  | nil => intro m n; simp [sizerW]
  | raw bs => intro m n; simp [sizerW]; omega
  | w16 v => intro m n; simp [sizerW]; omega
  | w32 v => intro m n; simp [sizerW]; omega
  | txt s => intro m n; simp only [sizerW, padUpFrom]; omega
  | seq a b iha ihb => intro m n; simp only [sizerW]; rw [iha, ihb]
  | chunk tag body ih =>
    intro m n
    simp only [sizerW]
    have h1 : m + n + tag.length + 1 = m + (n + tag.length + 1) := by omega
    have h2 : padUpFrom (m + (n + tag.length + 1)) (m + n)
        = m + padUpFrom (n + tag.length + 1) n := by
      simp only [padUpFrom]; omega
    rw [h1, h2]
    have h3 : m + padUpFrom (n + tag.length + 1) n + 4
        = m + (padUpFrom (n + tag.length + 1) n + 4) := by omega
    rw [h3, ih]
    have h4 := sizerW_le body (padUpFrom (n + tag.length + 1) n + 4)
    simp only [padUpFrom]
    omega

theorem runW_chunk_decomp (tag : List Nat) (body : W) (buf : List Nat) :
    ∃ (k : Nat) (ex : List Nat),
      runW (W.chunk tag body) buf
        = buf ++ (tag ++ [0] ++ List.replicate k 0) ++ wr32Bytes (4 + ex.length)
            ++ ex ++ List.replicate ((4 - (4 + ex.length) % 4) % 4) 0
      ∧ wrtxtApp buf tag = buf ++ (tag ++ [0] ++ List.replicate k 0)
      ∧ (tag.length + 1 + k) % 4 = 0 ∧ k < 4
      ∧ ex.length = sizerW body 0 := by
  obtain ⟨k, hT, hk4, hklt⟩ := wrtxtApp_spec buf tag
  obtain ⟨ex, hB, hBl⟩ := runW_spec body (wrtxtApp buf tag ++ wr32Bytes 0)
  refine ⟨k, ex, runW_chunk_eq tag body buf ex k hT hB, hT, hk4, hklt, ?_⟩
  have hsh := sizerW_shift body (wrtxtApp buf tag ++ wr32Bytes 0).length 0
  simp only [Nat.add_zero] at hsh
  omega

theorem readLE32_at (x : List Nat) (v : Nat) (rest : List Nat) :
    readLE32 (x ++ (wr32Bytes v ++ rest)) x.length = v % 4294967296 := by
  have g : ∀ i, i < 4 →
      (x ++ (wr32Bytes v ++ rest)).getD (x.length + i) 0 = (wr32Bytes v).getD i 0 := by
    intro i hi
    rw [List.getD_append_right x (wr32Bytes v ++ rest) 0 (x.length + i) (by omega)]
    have hsub : x.length + i - x.length = i := by omega
    rw [hsub, List.getD_append _ _ _ _ (by simp [wr32Bytes]; omega)]
  have e0 := g 0 (by omega)
  have e1 := g 1 (by omega)
  have e2 := g 2 (by omega)
  have e3 := g 3 (by omega)
  simp only [Nat.add_zero] at e0
  unfold readLE32
  rw [e0, e1, e2, e3]
  simp [wr32Bytes]
  omega

/-!
Helper lemmas about the mesh operations.
-/

theorem findAttrAux_cases (attrs : List Attribute) (nm : List Nat) :
    ∀ i, findAttrAux attrs nm i = bad_attr ∨ findAttrAux attrs nm i < i + attrs.length := by
  induction attrs with
  | nil => intro i; left; rfl
  | cons a rest ih =>
    intro i
    unfold findAttrAux
    by_cases hna : a.name = nm
    · right
      rw [if_pos hna]
      simp
    · rw [if_neg hna]
      rcases ih (i + 1) with hb | hlt
      · left; exact hb
      · right; simp at hlt ⊢; omega

theorem generate_normals_noop (m : Mesh) (h : m.attrs.length < bad_attr) :
    m.generate_normals = m := by
  have hcond : m.find_attribute normalName ≠ m.attrs.length := by
    unfold Mesh.find_attribute
    rcases findAttrAux_cases m.attrs normalName 0 with hb | hlt
    · rw [hb]; omega
    · omega
  unfold Mesh.generate_normals
  rw [if_pos hcond]

theorem splitStep_dest (src : Mesh) (a b n : Nat) (st : SplitSt) (i : Nat) :
    (splitStep src a b n st i).dest = st.dest := by
  simp only [splitStep]
  split_ifs <;> rfl

theorem foldl_splitStep_dest (src : Mesh) (a b n : Nat) (l : List Nat) :
    ∀ st : SplitSt, (l.foldl (splitStep src a b n) st).dest = st.dest := by
  induction l with
  | nil => intro st; rfl
  | cons x xs ih => intro st; rw [List.foldl_cons, ih, splitStep_dest]

theorem split_slow_path_empty (src : Mesh) (max_size new_index_size : Nat)
    (h : ¬ src.indices.all (fun i => decide (i < max_size)) = true) :
    multi_mesh.split src max_size new_index_size = [] := by
  unfold multi_mesh.split
  simp only [h, Bool.false_eq_true, if_false]
  rw [foldl_splitStep_dest]

/-!
Claim theorems.
-/

/-- C4: for every mesh in which every index value is `< max_index`,
`split(mesh, max_index, new_index_width)` returns a MultiMesh with
exactly one member, and that member (name, attribute descriptors and
per-vertex data, index buffer) is the input mesh itself. -/
theorem split_fast_path_identity (src : Mesh) (max_size new_index_size : Nat)
    (h : ∀ i ∈ src.indices, i < max_size) :
    multi_mesh.split src max_size new_index_size = [src] := by
  unfold multi_mesh.split
  have hall : src.indices.all (fun i => decide (i < max_size)) = true := by
    rw [List.all_eq_true]
    intro i hi
    exact decide_eq_true (h i hi)
  simp [hall]

/-- Witness for C4 at the concrete mesh `smallMesh` with
`max_index = 10`. -/
theorem split_fast_path_identity_witness :
    multi_mesh.split smallMesh 10 2 = [smallMesh] :=
  split_fast_path_identity smallMesh 10 2 (by decide)

/-- C1 (evaluation at the failing input): `bigMesh` has an index buffer
whose length is a multiple of 3 and an index `≥ max_index = 2`, yet
`split` returns the empty MultiMesh — the slow path never attaches any
finalized sub-mesh to the result, so no reassembly of sub-meshes can
reproduce the original triangles. -/
theorem split_slow_path_returns_empty :
    multi_mesh.split bigMesh 2 2 = []
  ∧ bigMesh.indices.length % 3 = 0
  ∧ (∃ i ∈ bigMesh.indices, 2 ≤ i) := by
  exact ⟨by decide, by decide, by decide⟩

/-- C2 (evaluation at the failing input): on the unit-square mesh the
guard of `generate_normals` compares the miss sentinel `bad_attr`
against the attribute count and returns immediately, so no `normal`
attribute is added at all — in particular no vertex receives the
expected normal `(0, 0, 1)`. -/
theorem generate_normals_never_adds_attribute :
    squareMesh.generate_normals = squareMesh
  ∧ squareMesh.find_attribute normalName = bad_attr
  ∧ squareMesh.find_attribute posName = 0 := by
  exact ⟨by decide, by decide, by decide⟩

/-- C9: `generate_normals` is idempotent — the second call leaves
exactly the attributes and indices of the first — and it is a no-op on
any mesh that already has an attribute named `normal`.  (On this code
both facts hold because the guard returns on every mesh whose attribute
count differs from the sentinel `bad_attr`, i.e. on every realizable
mesh.) -/
theorem generate_normals_idempotent (m : Mesh) (h : m.attrs.length < bad_attr) :
    (m.generate_normals).generate_normals = m.generate_normals
  ∧ (m.find_attribute normalName ≠ bad_attr → m.generate_normals = m) := by
  have h1 := generate_normals_noop m h
  exact ⟨by simp only [h1], fun _ => h1⟩

/-- Witness for C9 at the concrete mesh `emptyMesh`. -/
theorem generate_normals_idempotent_witness :
    (emptyMesh.generate_normals).generate_normals = emptyMesh.generate_normals
  ∧ (emptyMesh.find_attribute normalName ≠ bad_attr →
      emptyMesh.generate_normals = emptyMesh) :=
  generate_normals_idempotent emptyMesh (by decide)

/-- C5 (evaluation at the failing input): `meshPosEx` carries a `pos`
attribute of exactly the claimed well-formed shape (3 components,
4-byte scalars, float), yet `write_obj` raises the invalid-format error,
because the source compares `vertex_size()` — the byte size
`vector_elems * scalar_size = 12` — against 3.  A mesh without `pos`
returns only the header line and no error. -/
theorem write_obj_wrong_shape_check :
    Mesh.write_obj meshPosEx = Except.error ()
  ∧ (meshPosEx.attrs.getD 0 defaultAttr).vector_elems = 3
  ∧ (meshPosEx.attrs.getD 0 defaultAttr).scalar_size = 4
  ∧ (meshPosEx.attrs.getD 0 defaultAttr).is_float = true
  ∧ meshPosEx.find_attribute posName = 0
  ∧ Mesh.write_obj meshNoPosEx = Except.ok [ObjLine.header [110]] := by
  exact ⟨rfl, rfl, rfl, rfl, rfl, rfl⟩

/-- Counterexample to C3 as stated: for the chunk written by
`W.chunk tagATR W.nil` into an empty buffer the body appends no payload
bytes (second conjunct), yet the backpatched length field at offset 4
reads 4, not the payload byte count 0 — `chunk::~chunk` stores
`p - len`, which counts from the start of the length field, not from
the byte after it. -/
theorem chunk_length_field_counterexample :
    readLE32 (runW (W.chunk tagATR W.nil) []) 4 = 4
  ∧ runW W.nil (wrtxtApp [] tagATR ++ wr32Bytes 0) = wrtxtApp [] tagATR ++ wr32Bytes 0
  ∧ (wrtxtApp [] tagATR).length = 4
  ∧ readLE32 (runW (W.chunk tagATR W.nil) []) 4 ≠ 0 := by
  exact ⟨by decide, rfl, by decide, by decide⟩

/-- C3 (amended): for every chunk, the backpatched 4-byte little-endian
length field equals 4 plus the payload byte count — the exact byte count
from the START of the length field to the end of the payload
(pre-padding).  Consequently skipping `length` bytes from the length
field's start lands at the payload end, and rounding up to the next
4-byte boundary (relative to the length field) is exactly the chunk end,
which is 4-byte aligned relative to the chunk start. -/
theorem chunk_length_backpatch (tag : List Nat) (body : W) (buf : List Nat)
    (h : 4 + sizerW body 0 < 4294967296) :
    readLE32 (runW (W.chunk tag body) buf) (wrtxtApp buf tag).length
      = 4 + sizerW body 0
  ∧ (runW (W.chunk tag body) buf).length
      = (wrtxtApp buf tag).length + padUpFrom (4 + sizerW body 0) 0
  ∧ ((runW (W.chunk tag body) buf).length - buf.length) % 4 = 0 := by
  obtain ⟨k, ex, hout, hT, hk4, hklt, hexl⟩ := runW_chunk_decomp tag body buf
  have hshape : runW (W.chunk tag body) buf
      = (buf ++ (tag ++ [0] ++ List.replicate k 0))
          ++ (wr32Bytes (4 + ex.length)
              ++ (ex ++ List.replicate ((4 - (4 + ex.length) % 4) % 4) 0)) := by
    rw [hout]; simp [List.append_assoc]
  have hpos : (wrtxtApp buf tag).length
      = (buf ++ (tag ++ [0] ++ List.replicate k 0)).length := by rw [hT]
  refine ⟨?_, ?_, ?_⟩
  · rw [hshape, hpos, readLE32_at]
    omega
  · rw [hout, hT]
    simp only [padUpFrom]
    simp [wr32Bytes]
    omega
  · rw [hout]
    simp [wr32Bytes]
    omega

/-- Witness for C3 (amended) at the concrete chunk `MSH` with body
`wr32 7` into an empty buffer. -/
theorem chunk_length_backpatch_witness :
    readLE32 (runW (W.chunk tagMSH (W.w32 7)) []) (wrtxtApp [] tagMSH).length
      = 4 + sizerW (W.w32 7) 0
  ∧ (runW (W.chunk tagMSH (W.w32 7)) []).length
      = (wrtxtApp [] tagMSH).length + padUpFrom (4 + sizerW (W.w32 7) 0) 0
  ∧ ((runW (W.chunk tagMSH (W.w32 7)) []).length - ([] : List Nat).length) % 4 = 0 :=
  chunk_length_backpatch tagMSH (W.w32 7) [] (by decide)

/-- C6: for every writer-call sequence, the total accumulated by the
counting cursor `sizer` equals the number of bytes the same sequence
emits against a real byte sink (padding included, backpatch rewrites
notwithstanding); in particular a dry-run pass over
`multi_mesh::write_binary` precomputes the exact output size of the real
pass. -/
theorem sizer_counting_matches (w : W) (buf : List Nat) (mm : List Mesh) :
    (runW w buf).length = buf.length + sizerW w 0
  ∧ (multi_mesh.write_binary mm buf).length
      = buf.length + sizerW (multi_meshCalls mm) 0 := by
  have main : ∀ w' : W, (runW w' buf).length = buf.length + sizerW w' 0 := by
    intro w'
    obtain ⟨ex, h1, h2⟩ := runW_spec w' buf
    have hsh := sizerW_shift w' buf.length 0
    simp only [Nat.add_zero] at hsh
    rw [h1]
    simp
    omega
  exact ⟨main w, main (multi_meshCalls mm)⟩

/-- C7: two attributes with equal name and equal first three stored
components per vertex produce byte-identical `write_binary` output even
when their `vector_elems`, `scalar_size`, `is_float`, `is_unsigned` and
`is_normalized` flags all differ, and the emitted calls are always an
`ATR` chunk holding an `atn` name sub-chunk and an `a3f` sub-chunk with
exactly the first three stored components of each vertex as
little-endian binary32 — the fourth stored component never appears. -/
theorem attr_write_binary_flag_blind (a b : Attribute) (buf : List Nat)
    (hn : a.name = b.name) (hd : a.vertices.map xyzOf = b.vertices.map xyzOf) :
    Attribute.write_binary a buf = Attribute.write_binary b buf
  ∧ attrCalls a = W.chunk tagATR
      (W.seq (W.chunk tagAtn (W.txt a.name))
             (W.chunk tagA3f (W.raw ((a.vertices.map xyzOf).map f32enc3).flatten))) := by
  have hmap : ∀ c : Attribute,
      c.vertices.map f32triple = (c.vertices.map xyzOf).map f32enc3 := by
    intro c
    rw [List.map_map]
    rfl
  have hcalls : attrCalls a = attrCalls b := by
    unfold attrCalls
    rw [hn, hmap a, hmap b, hd]
  refine ⟨?_, ?_⟩
  · unfold Attribute.write_binary
    rw [hcalls]
  · unfold attrCalls
    rw [hmap a]

/-- Witness for C7 at the concrete attributes `attrFlagsA` and
`attrFlagsB`, which differ in every descriptor flag and in the fourth
stored component. -/
theorem attr_write_binary_flag_blind_witness :
    Attribute.write_binary attrFlagsA [] = Attribute.write_binary attrFlagsB []
  ∧ attrCalls attrFlagsA = W.chunk tagATR
      (W.seq (W.chunk tagAtn (W.txt attrFlagsA.name))
             (W.chunk tagA3f
               (W.raw ((attrFlagsA.vertices.map xyzOf).map f32enc3).flatten))) :=
  attr_write_binary_flag_blind attrFlagsA attrFlagsB [] rfl rfl

/-- C8: every chunk emission writes the tag text null-terminated and
zero-padded to the next 4-byte boundary from the tag's own start, closes
with zero bytes appended until the position is a multiple of 4 from the
length field's start, every padding byte written is zero, and the
complete chunk occupies a whole multiple of 4 bytes. -/
theorem chunk_emission_alignment (tag : List Nat) (body : W) (buf : List Nat) :
    ∃ (k : Nat) (ex : List Nat),
      runW (W.chunk tag body) buf
        = buf ++ (tag ++ [0] ++ List.replicate k 0) ++ wr32Bytes (4 + ex.length)
            ++ ex ++ List.replicate ((4 - (4 + ex.length) % 4) % 4) 0
      ∧ (tag.length + 1 + k) % 4 = 0
      ∧ (4 + ex.length + (4 - (4 + ex.length) % 4) % 4) % 4 = 0
      ∧ ((runW (W.chunk tag body) buf).length - buf.length) % 4 = 0 := by
  obtain ⟨k, ex, hout, hT, hk4, hklt, hexl⟩ := runW_chunk_decomp tag body buf
  refine ⟨k, ex, hout, hk4, by omega, ?_⟩
  rw [hout]
  simp [wr32Bytes]
  omega

/-- C10: for a mesh with `index_size == 2` the index chunk is an `ix2`
chunk writing each index through `wr16`, and `wr16` encodes a value as
its low 16 bits in two little-endian bytes — an index `≥ 65536` is
silently truncated modulo `2 ^ 16`, never rejected, clamped or
reported. -/
theorem ix2_truncates_to_16_bits (m : Mesh) (v : Nat) (buf : List Nat)
    (h : m.index_size = 2) :
    meshIndexCalls m = W.chunk tagIx2 (wseq (m.indices.map W.w16))
  ∧ runW (W.w16 v) buf = buf ++ [v % 256, v / 256 % 256]
  ∧ v % 256 + 256 * (v / 256 % 256) = v % 65536 := by
  refine ⟨?_, rfl, by omega⟩
  unfold meshIndexCalls
  rw [if_pos h]

/-- Witness for C10 at the concrete mesh `meshIx` and the index value
70000, which `wr16` encodes as 70000 mod 65536 = 4464. -/
theorem ix2_truncates_to_16_bits_witness :
    meshIndexCalls meshIx = W.chunk tagIx2 (wseq (meshIx.indices.map W.w16))
  ∧ runW (W.w16 70000) [] = [] ++ [70000 % 256, 70000 / 256 % 256]
  ∧ 70000 % 256 + 256 * (70000 / 256 % 256) = 70000 % 65536 :=
  ix2_truncates_to_16_bits meshIx 70000 [] rfl
